import Mathlib

/-!
Verification of the byte-normalization shim in lib/Crypto/Util/py3compat.py.

Only the Python-3 branch of the module is modelled, since the specification
targets the modern-side semantics.  Python runtime values that the helpers
dispatch on are embedded as a closed sum type; byte strings and code-point
sequences are lists of natural numbers; runtime exceptions become an error
sum returned through Except.
-/

namespace Py3Compat

/-- Runtime errors the helpers can raise: an encoding failure from
encoding a text string as latin-1, the range failure from building a bytes
object out of an integer outside 0..255, and the type failure from handing
a non-integer element to the bytes constructor. -/
inductive PyError where
  | encodingError
  | rangeError
  | typeError
deriving DecidableEq, Repr

/-- Python values the shim dispatches on: text strings (sequences of Unicode
code points), immutable byte strings, mutable bytearrays, memoryviews with
a readonly flag, and plain integers. -/
inductive PyVal where
  | str (cps : List Nat)
  | bytes (data : List Nat)
  | bytearray (data : List Nat)
  | memoryview (data : List Nat) (readonly : Bool)
  | int (n : Int)
deriving DecidableEq, Repr

/-- s.encode("latin-1"): each code point at most 255 becomes the byte of the
same value; any larger code point raises a UnicodeEncodeError. -/
def encodeLatin1 : List Nat → Except PyError (List Nat)
  | [] => .ok []
  | c :: cs =>
      if c ≤ 255 then (encodeLatin1 cs).map (fun t => c :: t)
      else .error .encodingError

/-- bytes([n]) for an integer n: the one-byte string [n] when n lies in
0..255, otherwise a ValueError (bytes must be in range(0, 256)). -/
def bytesFromInt (n : Int) : Except PyError (List Nat) :=
  if 0 ≤ n ∧ n ≤ 255 then .ok [n.toNat] else .error .rangeError

/-- def b(s): return s.encode("latin-1") -/
def b (s : List Nat) : Except PyError (List Nat) :=
  encodeLatin1 s

/-- def bchr(s): return bytes([s]) -/
def bchr (s : Int) : Except PyError (List Nat) :=
  bytesFromInt s

/-- def bord(s): return s  (indexing a Python-3 byte string already yields
the integer, so bord is the identity). -/
def bord (s : Nat) : Nat :=
  s

/-- def tobytes(s): bytes are returned as they are, text strings are
latin-1 encoded, and anything else is passed to bytes([s]), which succeeds
only on an integer in 0..255 and raises a TypeError on every non-integer
such as a bytearray, a memoryview or another sequence. -/
def tobytes : PyVal → Except PyError PyVal
  | .bytes d => .ok (.bytes d)
  | .str cps => (encodeLatin1 cps).map .bytes
  | .int n => (bytesFromInt n).map .bytes
  | .bytearray _ => .error .typeError
  | .memoryview _ _ => .error .typeError

/-- def tostr(bs): return bs.decode("latin-1")  (total on byte strings:
every byte value is a valid latin-1 code point of the same value). -/
def tostr (bs : List Nat) : List Nat :=
  bs

/-- def byte_string(s): return isinstance(s, bytes) -/
def byte_string : PyVal → Bool
  | .bytes _ => true
  | _ => false

/-- CPython resolution of one slice bound i against a sequence of length L
(step one): a negative bound is shifted by L and clamped below at zero, a
nonnegative bound is clamped above at L. -/
def sliceIdx (L : Nat) (i : Int) : Nat :=
  if i < 0 then ((L : Int) + i).toNat else min i.toNat L

/-- xs[start:stop] with integer bounds, as CPython slices a sequence. -/
def pySlice {α : Type} (xs : List α) (start stop : Int) : List α :=
  (xs.drop (sliceIdx xs.length start)).take
    (sliceIdx xs.length stop - sliceIdx xs.length start)

/-- def _copy_bytes(start, end, seq): a memoryview is sliced and
materialised with tobytes(), a bytearray is sliced and passed to bytes(),
and any other sequence is sliced directly (bytes give bytes, text gives
text); an integer is not subscriptable and raises a TypeError. -/
def _copy_bytes (start stop : Int) : PyVal → Except PyError PyVal
  | .memoryview d _ => .ok (.bytes (pySlice d start stop))
  | .bytearray d => .ok (.bytes (pySlice d start stop))
  | .bytes d => .ok (.bytes (pySlice d start stop))
  | .str cps => .ok (.str (pySlice cps start stop))
  | .int _ => .error .typeError

/-- def _is_immutable(data): true on byte strings and on readonly
memoryviews, false on everything else. -/
def _is_immutable (data : PyVal) : Bool :=
  if byte_string data then true
  else
    match data with
    | .memoryview _ ro => ro
    | _ => false

/-- def _is_mutable(data): return not _is_immutable(data) -/
def _is_mutable (data : PyVal) : Bool :=
  ! _is_immutable data

/-- A store of byte buffers addressed by position, modelling Python object
identity for the aliasing analysis of _copy_bytes: each address holds the
current contents of one buffer object. -/
structure Heap where
  store : List (List Nat)
deriving DecidableEq, Repr

/-- Contents currently held at address a. -/
def Heap.read (h : Heap) (a : Nat) : List Nat :=
  h.store.getD a []

/-- An in-place mutation of the buffer at address a, replacing its
contents by d (covers element writes and slice assignment alike). -/
def Heap.write (h : Heap) (a : Nat) (d : List Nat) : Heap :=
  ⟨h.store.set a d⟩

/-- The bytearray branch of _copy_bytes against the heap: bytes(seq[start:end])
reads the buffer at address a, slices it, and allocates the resulting
immutable copy as a new object at a fresh address, which is returned
together with the new heap. -/
def copyBytesAlloc (start stop : Int) (h : Heap) (a : Nat) : Heap × Nat :=
  (⟨h.store ++ [pySlice (h.read a) start stop]⟩, h.store.length)

instance {ε α : Type} [DecidableEq ε] [DecidableEq α] :
    DecidableEq (Except ε α) := fun x y =>
  match x, y with
  | .ok a, .ok c => if h : a = c then .isTrue (by rw [h]) else
      .isFalse (by intro hc; cases hc; exact h rfl)
  | .error e, .error f => if h : e = f then .isTrue (by rw [h]) else
      .isFalse (by intro hc; cases hc; exact h rfl)
  | .ok _, .error _ => .isFalse (by intro hc; cases hc)
  | .error _, .ok _ => .isFalse (by intro hc; cases hc)

/-! Helper lemmas about the latin-1 encoder, the slice resolver, and the
buffer store. -/

lemma encodeLatin1_ok (cps : List Nat) (h : ∀ c ∈ cps, c ≤ 255) :
    encodeLatin1 cps = .ok cps := by
  induction cps with
  | nil => rfl
  | cons c cs ih =>
      have hc : c ≤ 255 := h c (by simp)
      have ih2 := ih (fun x hx => h x (by simp [hx]))
      simp [encodeLatin1, hc, ih2, Except.map]

lemma encodeLatin1_err (cps : List Nat) (h : ∃ c ∈ cps, 255 < c) :
    encodeLatin1 cps = .error .encodingError := by
  induction cps with
  | nil => simp at h
  | cons c cs ih =>
      by_cases hc : c ≤ 255
      · have hcs : ∃ x ∈ cs, 255 < x := by
          rcases h with ⟨x, hx, hgt⟩
          rcases List.mem_cons.mp hx with rfl | hmem
          · omega
          · exact ⟨x, hmem, hgt⟩
        simp [encodeLatin1, hc, ih hcs, Except.map]
      · simp [encodeLatin1, hc]

lemma pySlice_in_range {α : Type} (xs : List α) (start stop : Int)
    (h0 : 0 ≤ start) (h1 : start ≤ stop) (h2 : stop ≤ (xs.length : Int)) :
    pySlice xs start stop = (xs.drop start.toNat).take (stop - start).toNat := by
  unfold pySlice sliceIdx
  rw [if_neg (by omega), if_neg (by omega)]
  have hi : min start.toNat xs.length = start.toNat := by omega
  have hj : min stop.toNat xs.length = stop.toNat := by omega
  rw [hi, hj, show stop.toNat - start.toNat = (stop - start).toNat from by omega]

lemma pySlice_clamp {α : Type} (xs : List α) (start stop : Int)
    (h0 : 0 ≤ start) (h2 : (xs.length : Int) ≤ stop) :
    pySlice xs start stop = xs.drop start.toNat := by
  unfold pySlice sliceIdx
  rw [if_neg (by omega), if_neg (by omega)]
  have hj : min stop.toNat xs.length = xs.length := by omega
  rw [hj]
  by_cases hs : start.toNat ≤ xs.length
  · rw [min_eq_left hs]
    have : (xs.drop start.toNat).length = xs.length - start.toNat :=
      List.length_drop _ _
    rw [← this, List.take_length]
  · rw [min_eq_right (by omega)]
    rw [List.drop_eq_nil_of_le (le_refl _), List.drop_eq_nil_of_le (by omega),
      List.take_nil]

lemma pySlice_reorder {α : Type} (xs : List α) (start stop : Int)
    (h0 : 0 ≤ stop) (h1 : stop ≤ start) :
    pySlice xs start stop = [] := by
  unfold pySlice sliceIdx
  rw [if_neg (by omega), if_neg (by omega)]
  rw [show min stop.toNat xs.length - min start.toNat xs.length = 0 from by omega]
  exact List.take_zero _

lemma sliceIdx_neg_shift (L : Nat) (i : Int) (h0 : i < 0) (h1 : -(L : Int) ≤ i) :
    sliceIdx L i = sliceIdx L ((L : Int) + i) := by
  unfold sliceIdx
  rw [if_pos h0, if_neg (by omega)]
  omega

lemma getD_append_self {α : Type} (l : List α) (x d : α) :
    (l ++ [x]).getD l.length d = x := by
  rw [List.getD_eq_getElem?_getD, List.getElem?_append_right (le_refl _)]
  simp

lemma getD_append_lt {α : Type} (l₁ l₂ : List α) (n : Nat) (d : α)
    (h : n < l₁.length) : (l₁ ++ l₂).getD n d = l₁.getD n d := by
  rw [List.getD_eq_getElem?_getD, List.getElem?_append_left h,
    ← List.getD_eq_getElem?_getD]

lemma getD_set_ne {α : Type} (l : List α) (i j : Nat) (x d : α) (h : i ≠ j) :
    (l.set i x).getD j d = l.getD j d := by
  rw [List.getD_eq_getElem?_getD, List.getElem?_set_ne h,
    ← List.getD_eq_getElem?_getD]

/-! Claim theorems. -/

/-- Claim C1, counterexample: the claim states that a textual value is
rejected by both classification predicates, but on the one-character text
string with code point 65 the predicate given by the code for
isMutableByteBuffer returns true, not false. -/
theorem is_mutable_textual_counterexample :
    _is_immutable (PyVal.str [65]) = false ∧
    _is_mutable (PyVal.str [65]) = true := by
  exact ⟨rfl, rfl⟩

/-- Claim C1, amended: a textual value is always rejected by
isImmutableByteBuffer, but isMutableByteBuffer is defined in the code as
the logical complement of isImmutableByteBuffer, so it accepts every
textual value: for every text string t, isImmutableByteBuffer t is false
and isMutableByteBuffer t is true. -/
theorem textual_classification :
    ∀ cps : List Nat,
      _is_immutable (PyVal.str cps) = false ∧
      _is_mutable (PyVal.str cps) = true ∧
      ∀ v : PyVal, _is_mutable v = ! _is_immutable v := by
  intro cps
  exact ⟨rfl, rfl, fun v => rfl⟩

/-- Claim C4: the text-to-binary conversions b and the textual branch of
tobytes raise the encoding error exactly when some code point exceeds 255;
when every code point is at most 255 they succeed and map each code point
N to the byte of value N. -/
theorem latin1_conversion_spec :
    ∀ cps : List Nat,
      ((∃ c ∈ cps, 255 < c) →
        b cps = .error .encodingError ∧
        tobytes (PyVal.str cps) = .error .encodingError) ∧
      ((∀ c ∈ cps, c ≤ 255) →
        b cps = .ok cps ∧
        tobytes (PyVal.str cps) = .ok (PyVal.bytes cps)) := by
  intro cps
  constructor
  · intro h
    have he := encodeLatin1_err cps h
    exact ⟨he, by simp [tobytes, he, Except.map]⟩
  · intro h
    have he := encodeLatin1_ok cps h
    exact ⟨he, by simp [tobytes, he, Except.map]⟩

/-- Claim C4, witness: the conversions fail on a string holding code point
300 and succeed, code point by code point, on a string of points 65 and 66. -/
theorem latin1_conversion_spec_witness :
    b [65, 300] = .error .encodingError ∧ b [65, 66] = .ok [65, 66] :=
  ⟨((latin1_conversion_spec [65, 300]).1 (by decide)).1,
   ((latin1_conversion_spec [65, 66]).2 (by decide)).1⟩

/-- Claim C5: bchr fails with the range error for every integer outside
0..255 and, for every integer c inside that range, succeeds with the
one-byte buffer holding the value c. -/
theorem bchr_range_spec :
    ∀ c : Int,
      (0 ≤ c ∧ c ≤ 255 → bchr c = .ok [c.toNat]) ∧
      (¬(0 ≤ c ∧ c ≤ 255) → bchr c = .error .rangeError) := by
  intro c
  constructor
  · intro h
    unfold bchr bytesFromInt
    rw [if_pos h]
  · intro h
    unfold bchr bytesFromInt
    rw [if_neg h]

/-- Claim C5, witness: bchr succeeds on 0 and on 255 with the matching
one-byte buffers, and fails with the range error on 256 and on -1. -/
theorem bchr_range_spec_witness :
    bchr 0 = .ok [0] ∧ bchr 255 = .ok [255] ∧
    bchr 256 = .error .rangeError ∧ bchr (-1) = .error .rangeError :=
  ⟨((bchr_range_spec 0).1 (by decide)).trans (by decide),
   ((bchr_range_spec 255).1 (by decide)).trans (by decide),
   (bchr_range_spec 256).2 (by decide),
   (bchr_range_spec (-1)).2 (by decide)⟩

/-- Claim C6: for every integer c in 0..255, indexing the buffer produced
by bchr at position zero and passing the element through bord recovers c. -/
theorem bord_bchr_roundtrip :
    ∀ c : Nat, c ≤ 255 →
      (bchr (c : Int)).map (fun d => bord (d.getD 0 0)) = .ok c := by
  intro c h
  have hc : 0 ≤ (c : Int) ∧ (c : Int) ≤ 255 := by omega
  simp [bchr, bytesFromInt, hc, bord, Except.map, List.getD]

/-- Claim C6, witness: the round trip recovers the byte value 200. -/
theorem bord_bchr_roundtrip_witness :
    (bchr ((200 : Nat) : Int)).map (fun d => bord (d.getD 0 0)) = .ok 200 :=
  bord_bchr_roundtrip 200 (by decide)

/-- Claim C7: for every text string whose code points all lie in 0..255,
decoding the buffer produced by tobytes with tostr recovers the string;
tobytes on the text ABC gives the bytes 65 66 67 and tostr gives back the
text; tostr is total on byte strings and maps each byte value N to the
code point N. -/
theorem tobytes_tostr_roundtrip :
    (∀ cps : List Nat, (∀ c ∈ cps, c ≤ 255) →
      ∃ dd, tobytes (PyVal.str cps) = .ok (PyVal.bytes dd) ∧ tostr dd = cps) ∧
    tobytes (PyVal.str [65, 66, 67]) = .ok (PyVal.bytes [65, 66, 67]) ∧
    tostr [65, 66, 67] = [65, 66, 67] ∧
    (∀ bs : List Nat, tostr bs = bs) := by
  refine ⟨fun cps h => ⟨cps, ?_, rfl⟩, by decide, rfl, fun bs => rfl⟩
  simp [tobytes, encodeLatin1_ok cps h, Except.map]

/-- Claim C7, witness: the round trip through tobytes and tostr holds on
the two-point text string with code points 0 and 255. -/
theorem tobytes_tostr_roundtrip_witness :
    tobytes (PyVal.str [0, 255]) = .ok (PyVal.bytes [0, 255]) := by
  obtain ⟨dd, h1, h2⟩ := tobytes_tostr_roundtrip.1 [0, 255] (by decide)
  exact (show dd = [0, 255] from h2) ▸ h1

/-- Claim C8: tobytes returns every immutable byte string unchanged, so it
is the identity, and in particular idempotent, on already-canonical
input. -/
theorem tobytes_bytes_identity :
    ∀ dd : List Nat, tobytes (PyVal.bytes dd) = .ok (PyVal.bytes dd) :=
  fun _ => rfl

/-- Claim C10: tobytes on a bare integer computes exactly what bchr
computes, so it succeeds with the same one-byte buffer for integers in
0..255 and fails with the range error outside that interval. -/
theorem tobytes_int_spec :
    ∀ n : Int,
      tobytes (PyVal.int n) = (bchr n).map PyVal.bytes ∧
      (0 ≤ n ∧ n ≤ 255 → tobytes (PyVal.int n) = .ok (PyVal.bytes [n.toNat])) ∧
      (¬(0 ≤ n ∧ n ≤ 255) → tobytes (PyVal.int n) = .error .rangeError) := by
  intro n
  refine ⟨rfl, fun h => ?_, fun h => ?_⟩
  · simp [tobytes, bytesFromInt, h, Except.map]
  · simp [tobytes, bytesFromInt, h, Except.map]

/-- Claim C10, witness: tobytes on the integer 65 gives the one-byte
buffer 65, matching bchr, and on 300 and on -1 fails with the range
error. -/
theorem tobytes_int_spec_witness :
    tobytes (PyVal.int 65) = .ok (PyVal.bytes [65]) ∧
    tobytes (PyVal.int 300) = .error .rangeError ∧
    tobytes (PyVal.int (-1)) = .error .rangeError :=
  ⟨((tobytes_int_spec 65).2.1 (by decide)).trans (by decide),
   (tobytes_int_spec 300).2.2 (by decide),
   (tobytes_int_spec (-1)).2.2 (by decide)⟩

/-- Claim C2, counterexample: the claim states that tobytes turns a
mutable buffer into the immutable buffer with the same byte values, but on
the one-byte mutable buffer holding 65 the code raises a TypeError instead
of returning the one-byte immutable buffer. -/
theorem tobytes_bytearray_counterexample :
    tobytes (PyVal.bytearray [65]) = .error .typeError ∧
    tobytes (PyVal.bytearray [65]) ≠ .ok (PyVal.bytes [65]) := by
  decide

/-- Claim C2, amended: for inputs that are neither textual nor immutable
byte strings, tobytes wraps the input in a one-element list and hands it
to the bytes constructor, so it succeeds only on a bare integer in 0..255,
producing the one-byte buffer of that value, and raises a TypeError on
every sequence input such as a mutable buffer or a memoryview. -/
theorem tobytes_fallback_spec :
    ∀ (n : Int) (d : List Nat) (ro : Bool),
      tobytes (PyVal.bytearray d) = .error .typeError ∧
      tobytes (PyVal.memoryview d ro) = .error .typeError ∧
      (0 ≤ n ∧ n ≤ 255 → tobytes (PyVal.int n) = .ok (PyVal.bytes [n.toNat])) ∧
      (¬(0 ≤ n ∧ n ≤ 255) → tobytes (PyVal.int n) = .error .rangeError) := by
  intro n d ro
  refine ⟨rfl, rfl, fun h => ?_, fun h => ?_⟩
  · simp [tobytes, bytesFromInt, h, Except.map]
  · simp [tobytes, bytesFromInt, h, Except.map]

/-- Claim C2, witness: the fallback raises a TypeError on the one-byte
mutable buffer holding 65, succeeds on the bare integer 65, and raises
the range error on the bare integer 300. -/
theorem tobytes_fallback_spec_witness :
    tobytes (PyVal.bytearray [65]) = .error .typeError ∧
    tobytes (PyVal.int 65) = .ok (PyVal.bytes [65]) ∧
    tobytes (PyVal.int 300) = .error .rangeError :=
  ⟨(tobytes_fallback_spec 65 [65] false).1,
   ((tobytes_fallback_spec 65 [65] false).2.2.1 (by decide)).trans (by decide),
   (tobytes_fallback_spec 300 [65] false).2.2.2 (by decide)⟩

/-- Claim C3, counterexample: the claim states that negative bounds yield
an empty result, but on the four-byte buffer 16 32 48 64 the call with
bounds -3 and 4 returns the last three bytes, not the empty buffer. -/
theorem copy_bytes_negative_counterexample :
    _copy_bytes (-3) 4 (PyVal.bytes [16, 32, 48, 64]) =
      .ok (PyVal.bytes [32, 48, 64]) ∧
    _copy_bytes (-3) 4 (PyVal.bytes [16, 32, 48, 64]) ≠
      .ok (PyVal.bytes []) := by
  decide

/-- Claim C3, amended: for every byte container and integer bounds,
the copy helper never raises; a nonnegative bound exceeding the length is
clamped to the length; nonnegative bounds in the wrong order yield the
empty buffer; in-range nonnegative bounds yield exactly the half-open
range from start to stop; and a negative bound is interpreted relative to
the end of the container, as in standard slice semantics, rather than
forcing an empty result. -/
theorem copy_bytes_spec :
    ∀ (d : List Nat) (start stop : Int),
      (∃ r, _copy_bytes start stop (PyVal.bytes d) = .ok r) ∧
      (∃ r, _copy_bytes start stop (PyVal.bytearray d) = .ok r) ∧
      (∀ ro, ∃ r, _copy_bytes start stop (PyVal.memoryview d ro) = .ok r) ∧
      (0 ≤ start → start ≤ stop → stop ≤ (d.length : Int) →
        _copy_bytes start stop (PyVal.bytes d) =
          .ok (PyVal.bytes ((d.drop start.toNat).take (stop - start).toNat))) ∧
      (0 ≤ start → (d.length : Int) ≤ stop →
        _copy_bytes start stop (PyVal.bytes d) =
          .ok (PyVal.bytes (d.drop start.toNat))) ∧
      (0 ≤ stop → stop ≤ start →
        _copy_bytes start stop (PyVal.bytes d) = .ok (PyVal.bytes [])) ∧
      (start < 0 → -(d.length : Int) ≤ start →
        _copy_bytes start stop (PyVal.bytes d) =
          _copy_bytes ((d.length : Int) + start) stop (PyVal.bytes d)) := by
  intro d start stop
  refine ⟨⟨_, rfl⟩, ⟨_, rfl⟩, fun ro => ⟨_, rfl⟩,
    fun h0 h1 h2 => ?_, fun h0 h2 => ?_, fun h0 h1 => ?_, fun h0 h1 => ?_⟩
  · simp [_copy_bytes, pySlice_in_range d start stop h0 h1 h2]
  · simp [_copy_bytes, pySlice_clamp d start stop h0 h2]
  · simp [_copy_bytes, pySlice_reorder d start stop h0 h1]
  · simp only [_copy_bytes, pySlice]
    rw [sliceIdx_neg_shift d.length start h0 h1]

/-- Claim C3, witness: on the four-byte buffer 16 32 48 64, in-range
bounds 0 and 2 give the first two bytes and the clamped bounds 2 and 100
give the last two bytes, with no failure. -/
theorem copy_bytes_spec_witness :
    _copy_bytes 0 2 (PyVal.bytes [16, 32, 48, 64]) =
      .ok (PyVal.bytes [16, 32]) ∧
    _copy_bytes 2 100 (PyVal.bytes [16, 32, 48, 64]) =
      .ok (PyVal.bytes [48, 64]) :=
  ⟨((copy_bytes_spec [16, 32, 48, 64] 0 2).2.2.2.1
      (by decide) (by decide) (by decide)).trans (by decide),
   ((copy_bytes_spec [16, 32, 48, 64] 2 100).2.2.2.2.1
      (by decide) (by decide)).trans (by decide)⟩

/-- Claim C9: the bytearray branch of the copy helper allocates the copy
at a fresh address, distinct from the source; the copy holds the slice of
the source taken at call time; mutating the source afterwards never
changes the contents read back from the copy; mutating the buffer at the
address of the copy never changes the source; and for in-range bounds the
slice is exactly the elements of the half-open range from start to stop. -/
theorem copy_bytes_no_alias :
    ∀ (h : Heap) (a : Nat) (start stop : Int), a < h.store.length →
      (copyBytesAlloc start stop h a).2 ≠ a ∧
      (copyBytesAlloc start stop h a).1.read (copyBytesAlloc start stop h a).2 =
        pySlice (h.read a) start stop ∧
      (∀ d, ((copyBytesAlloc start stop h a).1.write a d).read
          (copyBytesAlloc start stop h a).2 = pySlice (h.read a) start stop) ∧
      (∀ d, ((copyBytesAlloc start stop h a).1.write
          (copyBytesAlloc start stop h a).2 d).read a = h.read a) ∧
      (0 ≤ start → start ≤ stop → stop ≤ ((h.read a).length : Int) →
        pySlice (h.read a) start stop =
          ((h.read a).drop start.toNat).take (stop - start).toNat) := by
  intro h a start stop ha
  refine ⟨by simp only [copyBytesAlloc]; omega, ?_, fun d => ?_, fun d => ?_,
    fun h0 h1 h2 => pySlice_in_range _ _ _ h0 h1 h2⟩
  · exact getD_append_self h.store (pySlice (h.read a) start stop) []
  · show ((h.store ++ [pySlice (h.read a) start stop]).set a d).getD
        h.store.length [] = pySlice (h.read a) start stop
    rw [getD_set_ne _ a h.store.length d [] (by omega)]
    exact getD_append_self _ _ _
  · show ((h.store ++ [pySlice (h.read a) start stop]).set h.store.length
        d).getD a [] = h.store.getD a []
    rw [getD_set_ne _ h.store.length a d [] (by omega)]
    exact getD_append_lt _ _ a [] ha

/-- Claim C9, witness: on the store holding one four-byte buffer, the copy
of range one to three lands at a fresh address and still reads 32 48 after
the source buffer is overwritten with zeros. -/
theorem copy_bytes_no_alias_witness :
    (copyBytesAlloc 1 3 ⟨[[16, 32, 48, 64]]⟩ 0).2 ≠ 0 ∧
    ((copyBytesAlloc 1 3 ⟨[[16, 32, 48, 64]]⟩ 0).1.write 0 [0, 0, 0, 0]).read
      (copyBytesAlloc 1 3 ⟨[[16, 32, 48, 64]]⟩ 0).2 = [32, 48] := by
  have h := copy_bytes_no_alias ⟨[[16, 32, 48, 64]]⟩ 0 1 3 (by decide)
  exact ⟨h.1, (h.2.2.1 [0, 0, 0, 0]).trans (by decide)⟩

end Py3Compat
